import Mathlib

/-!
# Verification of the crosswalk-app-tools download / command-parsing subsystem

Shallow embedding of `src/CommandParser.js` and of the Android project
dependencies module (`AndroidProjectDeps`: channel resolver, version-index
fetch, local archive lookup, archive download), together with theorems
checking the claims of the specification against the embedded code.

JavaScript strings are modelled as Lean `String` (a wrapper around
`List Char`); character-level operations of the source (`split`,
indexing, regex prefix match) are embedded as explicit list functions so
that everything reduces computationally.
-/

namespace Crosswalk

/-! ## JavaScript string primitives -/

/-- JS `s.split(c)` for a single-character separator, on the character
list: `"" → [""]`, separators at the ends produce empty fields. -/
def splitOnCharList (c : Char) : List Char → List (List Char)
  | [] => [[]]
  | x :: xs =>
    match splitOnCharList c xs with
    | [] => [[]]
    | y :: ys => if x = c then [] :: y :: ys else (x :: y) :: ys

/-- JS `s.split(c)` for a single-character separator. -/
def jsSplit (s : String) (c : Char) : List String :=
  (splitOnCharList c s.data).map (fun l => ⟨l⟩)

/-- JS `s[i]`: `some` character, or `none` (JS `undefined`) out of range. -/
def jsCharAt (s : String) (i : Nat) : Option Char :=
  s.data.get? i

/-- JS truthiness of a string-or-null value: `null`/`undefined` and the
empty string are falsy, every other string is truthy. -/
def truthy : Option String → Bool
  | none => false
  | some s => !(s == "")

/-- JS `s.match(re)[0]` for a regex of the form `[cls]*`: the regex is
unanchored, so the first (and longest, by greediness) match is the longest
prefix of characters in the class. -/
def jsMatchPrefix (p : Char → Bool) (s : String) : String :=
  ⟨s.data.takeWhile p⟩

/-! ## CommandParser (src/CommandParser.js) -/

/-- Character class `[A-Za-z0-9_\.]` of `createGetPackage`. -/
def isPkgChar (c : Char) : Bool :=
  c.isAlpha || c.isDigit || c = '_' || c = '.'

/-- Character class `[0-9\.]` of `updateGetVersion`. -/
def isVerChar (c : Char) : Bool :=
  c.isDigit || c = '.'

/-- State of `CommandParser(argv)`: parsing and validation of
command-line arguments. `argv` follows the Node convention: `argv[0]` is
the interpreter, `argv[1]` the script, `argv[2]` the command. -/
structure CommandParser where
  _argv : List String

namespace CommandParser

/-- Embedding of `CommandParser.prototype.peekCommand`. -/
def peekCommand (p : CommandParser) : Option String :=
  if p._argv.length < 3 then
    none
  else
    let command := p._argv.getD 2 ""
    if ["version", "-v", "-version", "--version"].contains command then
      some "version"
    else if ["help", "-h", "-help", "--help"].contains command then
      some "help"
    else if ["create", "update", "refresh", "build"].contains command then
      some command
    else
      none

/-- Embedding of `CommandParser.prototype.createGetPackage`: package name
validation for the `create` command. The source tests
`pkg.match("[A-Za-z0-9_\\.]*")[0] != pkg` (a character outside the class),
then a leading or a trailing dot, then fewer than 3 dot-separated
segments. -/
def createGetPackage (p : CommandParser) : Option String :=
  if p._argv.length < 4 then
    none
  else
    let pkg := p._argv.getD 3 ""
    if jsMatchPrefix isPkgChar pkg ≠ pkg then
      none
    else if jsCharAt pkg 0 = some '.' ∨ jsCharAt pkg (pkg.length - 1) = some '.' then
      none
    else if (jsSplit pkg '.').length < 3 then
      none
    else
      some pkg

/-- Embedding of `CommandParser.prototype.updateGetVersion`: version
validation for the `update` command. The source tests
`version.match("[0-9\\.]*")[0] != version`, then whether the number of
dot-separated segments differs from 4. -/
def updateGetVersion (p : CommandParser) : Option String :=
  if p._argv.length < 4 then
    none
  else
    let version := p._argv.getD 3 ""
    if jsMatchPrefix isVerChar version ≠ version then
      none
    else if (jsSplit version '.').length ≠ 4 then
      none
    else
      some version

/-- Embedding of `CommandParser.prototype.buildGetType`: build type for
the `build` command, defaulting to `"debug"` when no type is given. -/
def buildGetType (p : CommandParser) : Option String :=
  if p._argv.length < 3 then
    none
  else if p._argv.length < 4 then
    some "debug"
  else
    let type := p._argv.getD 3 ""
    if ["debug", "release"].contains type then
      some type
    else
      none

/-- Embedding of `CommandParser.prototype.getCommand`: the main command
when the command line is valid, otherwise `none` (JS `null`). -/
def getCommand (p : CommandParser) : Option String :=
  match p.peekCommand with
  | some "create" => if (p.createGetPackage).isSome then some "create" else none
  | some "update" => if (p.updateGetVersion).isSome then some "update" else none
  | some "build" => if (p.buildGetType).isSome then some "build" else none
  | some "help" => some "help"
  | some "version" => some "version"
  | _ => none

end CommandParser

/-! ## AndroidProjectDeps: channel resolver, fetch, find, download -/

/-- Constant `BASE_URL` of the Android project dependencies module. -/
def BASE_URL : String := "https://download.01.org/crosswalk/releases/crosswalk/android/"

/-- Constant `CHANNELS`: the fixed set of recognized release channels. -/
def CHANNELS : List String := ["beta", "canary", "stable"]

/-- State of `AndroidProjectDeps`: resolver bound to one release
channel. -/
structure AndroidProjectDeps where
  _channel : String

namespace AndroidProjectDeps

/-- The `AndroidProjectDeps(channel)` constructor: throws
`InvalidChannelError("Unknown channel " + channel)` when the channel is
not recognized (modelled as `Except.error` carrying the message),
otherwise stores the channel. -/
def create (channel : String) : Except String AndroidProjectDeps :=
  if CHANNELS.contains channel then
    Except.ok { _channel := channel }
  else
    Except.error ("Unknown channel " ++ channel)

/-- The four-dotted-numeric version shape: exactly 4 dot-separated
segments, each a non-empty run of digits. -/
def isVersionShape (s : String) : Bool :=
  let parts := jsSplit s '.'
  parts.length = 4 && parts.all (fun part => part ≠ "" && part.data.all Char.isDigit)

/-- Modelled from the spec: the Listing Parser (`IndexParser`, a module of
this repository that is not among the given sources) extracts candidate
entries from the listing document in discovery order and keeps exactly
those matching the four-dotted-numeric shape, dropping malformed entries
silently; it never fails. Candidate entries are modelled as the lines of
the document. -/
def indexParse (doc : String) : List String :=
  ((splitOnCharList '\n' doc.data).map (fun l => (⟨l⟩ : String))).filter isVersionShape

/-- Environment of one `fetchVersions` run: the outcomes of its three
effectful collaborators.
* `tmpfile`: result of `MkTemp.createFileSync` on the template
  `index.html.XXXXXX` (`none` for JS `null`);
* `errormsg`: the argument the Transfer Client (`Downloader.get`) passes
  to its terminal callback (`none` for success);
* `readResult`: `FS.readFileSync` on the downloaded listing — `ok` the
  file text, or `error` an exception message (Node `readFileSync` throws
  on an I/O failure; the source does not catch it). -/
structure FetchEnv where
  tmpfile : Option String
  errormsg : Option String
  readResult : Except String String

/-- Observable outcome of one `fetchVersions` run. -/
structure FetchResult where
  /-- The listing URL handed to the Transfer Client. -/
  url : String
  /-- Final message passed to `indicator.done` (`none`: never called). -/
  doneArg : Option String
  /-- First argument of the completion callback (`versions`). -/
  cbVersions : Option (List String)
  /-- Second argument of the completion callback (`errormsg`). -/
  cbErrormsg : Option String
  /-- Whether the completion callback was invoked. -/
  cbCalled : Bool
  /-- Whether `ShellJS.rm` was executed on the acquired temporary file. -/
  rmIndexFile : Bool
  /-- Whether an exception escaped `fetchVersions`. -/
  raised : Bool
  deriving Repr, DecidableEq

/-- Embedding of `AndroidProjectDeps.prototype.fetchVersions`, with the
effects of its collaborators supplied by `env` and the observable
behaviour returned.
Mirrors the source: on a truthy temp file it downloads, calls
`indicator.done("")`, then either reports the download error or reads and
parses the listing, and only afterwards removes the temp file — so an
exception from the read propagates before the removal. On a falsy temp
file it reports a fixed failure (no temp file was acquired, so the
`ShellJS.rm` on the falsy value removes nothing). -/
def fetchVersions (deps : AndroidProjectDeps) (env : FetchEnv) : FetchResult :=
  let url := BASE_URL ++ deps._channel ++ "/"
  if truthy env.tmpfile then
    if truthy env.errormsg then
      { url := url, doneArg := some "", cbVersions := none, cbErrormsg := env.errormsg,
        cbCalled := true, rmIndexFile := true, raised := false }
    else
      match env.readResult with
      | Except.error _ =>
        { url := url, doneArg := some "", cbVersions := none, cbErrormsg := none,
          cbCalled := false, rmIndexFile := false, raised := true }
      | Except.ok buffer =>
        { url := url, doneArg := some "", cbVersions := some (indexParse buffer),
          cbErrormsg := none, cbCalled := true, rmIndexFile := true, raised := false }
  else
    { url := url, doneArg := none, cbVersions := none,
      cbErrormsg := some "Failed to download package index.",
      cbCalled := true, rmIndexFile := false, raised := false }

/-- Does a file name match the shell glob `crosswalk-*.*.*.*.zip`?
A name matches iff it decomposes as
`"crosswalk-" ++ a ++ "." ++ b ++ "." ++ c ++ "." ++ d ++ ".zip"`,
i.e. iff it starts with `"crosswalk-"`, ends with `".zip"`, and the
part between them contains at least 3 dots (`*` matches any characters,
dots included). -/
def matchesArchiveGlob (s : String) : Bool :=
  let cs := s.data
  "crosswalk-".data.isPrefixOf cs &&
  ".zip".data.isSuffixOf (cs.drop 10) &&
  ((((cs.drop 10).take ((cs.drop 10).length - 4)).count '.') ≥ 3)

/-- Local filesystem state seen by `find`: the file names of the current
directory and of its parent. -/
structure LocalFS where
  cwd : List String
  parent : List String

/-- Embedding of `ShellJS.ls` with the archive glob, over the file names
of one directory: the names matching the glob, in lexicographic order
(the listing contract assumed by the source, which picks the last
entry). -/
def shellLs (names : List String) : List String :=
  List.insertionSort (· ≤ ·) (names.filter matchesArchiveGlob)

/-- Embedding of `AndroidProjectDeps.prototype.find`: the archive matches
of the current directory, or failing that those of the parent directory
(whose entries `ls` reports with a `../` path prefix), picking
`zips[zips.length - 1]`; `none` models the `false` returned when neither
directory has a match. -/
def find (fs : LocalFS) : Option String :=
  let zips := shellLs fs.cwd
  if zips.length = 0 then
    let zips := (shellLs fs.parent).map (fun n => "../" ++ n)
    if zips.length = 0 then
      none
    else
      some (zips.getD (zips.length - 1) "")
  else
    some (zips.getD (zips.length - 1) "")

/-- Environment of one `download` run: the argument the Transfer Client
passes to its terminal callback (`none` for success). -/
structure DownloadEnv where
  errormsg : Option String

/-- Observable outcome of one `download` run. -/
structure DownloadResult where
  /-- The archive URL handed to the Transfer Client. -/
  url : String
  /-- The destination path handed to the Transfer Client. -/
  path : String
  /-- Final message passed to `indicator.done` (`none`: never called). -/
  doneArg : Option String
  /-- First argument of the completion callback (`filename`). -/
  cbFilename : Option String
  /-- Second argument of the completion callback (`errormsg`). -/
  cbErrormsg : Option String
  deriving Repr, DecidableEq

/-- Embedding of the Node call `Path.join(dir, filename)` for a
well-formed directory path (normalization elided). -/
def pathJoin (dir filename : String) : String :=
  dir ++ "/" ++ filename

/-- Embedding of `AndroidProjectDeps.prototype.download`: builds the
archive filename, URL and destination path, downloads, and in the
terminal callback calls `indicator.done("")` unconditionally before
branching on the error. -/
def download (deps : AndroidProjectDeps) (version dir : String) (env : DownloadEnv) :
    DownloadResult :=
  let filename := "crosswalk-" ++ version ++ ".zip"
  let url := BASE_URL ++ deps._channel ++ "/" ++ version ++ "/" ++ filename
  let path := pathJoin dir filename
  if truthy env.errormsg then
    { url := url, path := path, doneArg := some "",
      cbFilename := none, cbErrormsg := env.errormsg }
  else
    { url := url, path := path, doneArg := some "",
      cbFilename := some filename, cbErrormsg := none }

end AndroidProjectDeps

/-! ## Spec-side URL grammar (for the refinement claim C9)

These three definitions follow the words of the specification, not the
source; C9 compares the URLs and paths the embedded code computes against
them. -/

/-- Listing URL per the spec: `<base-url>/<channel>/` (the base URL of
the source already ends in `/`). -/
def specListingUrl (base channel : String) : String :=
  base ++ channel ++ "/"

/-- Archive file name per the spec: `<archive-name>-<version>.zip`. -/
def specArchiveFilename (archive version : String) : String :=
  archive ++ "-" ++ version ++ ".zip"

/-- Archive URL per the spec:
`<base-url>/<channel>/<version>/<archive-name>-<version>.zip`. -/
def specArchiveUrl (base channel version archive : String) : String :=
  base ++ channel ++ "/" ++ version ++ "/" ++ specArchiveFilename archive version

/-! ## Helper lemmas -/

/-- A whole string survives the `[cls]*` prefix match exactly when every
character is in the class. -/
theorem jsMatchPrefix_eq_self_iff (p : Char → Bool) (s : String) :
    jsMatchPrefix p s = s ↔ s.data.all p = true := by
  rw [show (jsMatchPrefix p s = s ↔ s.data.takeWhile p = s.data) from String.ext_iff]
  simp only [List.all_eq_true]
  exact List.takeWhile_eq_self_iff

/-- Membership form of `List.contains` on strings. -/
theorem string_contains_iff (l : List String) (c : String) :
    (l.contains c = true) ↔ c ∈ l := by
  simp [List.contains_eq_any_beq, List.any_eq_true, eq_comm]

/-- Unfolding of `peekCommand` on an argument vector that has a command
token. -/
theorem peekCommand_cons (a0 a1 c : String) (rest : List String) :
    CommandParser.peekCommand ⟨a0 :: a1 :: c :: rest⟩ =
      (if ["version", "-v", "-version", "--version"].contains c then some "version"
       else if ["help", "-h", "-help", "--help"].contains c then some "help"
       else if ["create", "update", "refresh", "build"].contains c then some c
       else none) := by
  unfold CommandParser.peekCommand
  rw [if_neg (by simp only [List.length_cons]; omega)]
  rfl

/-- Unfolding of `updateGetVersion` when a version argument is present. -/
theorem updateGetVersion_cons (a0 a1 c v : String) (ts : List String) :
    CommandParser.updateGetVersion ⟨a0 :: a1 :: c :: v :: ts⟩ =
      (if jsMatchPrefix isVerChar v ≠ v then none
       else if (jsSplit v '.').length ≠ 4 then none
       else some v) := by
  unfold CommandParser.updateGetVersion
  rw [if_neg (by simp only [List.length_cons]; omega)]
  rfl

/-- Unfolding of `createGetPackage` when a package argument is present. -/
theorem createGetPackage_cons (a0 a1 c pkg : String) (ts : List String) :
    CommandParser.createGetPackage ⟨a0 :: a1 :: c :: pkg :: ts⟩ =
      (if jsMatchPrefix isPkgChar pkg ≠ pkg then none
       else if jsCharAt pkg 0 = some '.' ∨ jsCharAt pkg (pkg.length - 1) = some '.' then none
       else if (jsSplit pkg '.').length < 3 then none
       else some pkg) := by
  unfold CommandParser.createGetPackage
  rw [if_neg (by simp only [List.length_cons]; omega)]
  rfl

/-- Unfolding of `buildGetType` when a type argument is present. -/
theorem buildGetType_cons (a0 a1 c t : String) (ts : List String) :
    CommandParser.buildGetType ⟨a0 :: a1 :: c :: t :: ts⟩ =
      (if ["debug", "release"].contains t then some t else none) := by
  unfold CommandParser.buildGetType
  rw [if_neg (by simp only [List.length_cons]; omega),
      if_neg (by simp only [List.length_cons]; omega)]
  rfl

/-- JS indexing `zips[zips.length - 1]` picks the last element. -/
theorem getD_last_eq_getLast :
    ∀ (l : List String) (h : l ≠ []) (d : String), l.getD (l.length - 1) d = l.getLast h
  | [_], _, _ => rfl
  | a :: b :: t, _, d => by
    have ih := getD_last_eq_getLast (b :: t) (List.cons_ne_nil b t) d
    calc (a :: b :: t).getD ((a :: b :: t).length - 1) d
        = (b :: t).getD ((b :: t).length - 1) d := by
          simp only [List.length_cons, Nat.add_sub_cancel]
          rw [List.getD_cons_succ]
      _ = (b :: t).getLast (List.cons_ne_nil b t) := ih
      _ = (a :: b :: t).getLast (List.cons_ne_nil a (b :: t)) :=
          (List.getLast_cons (List.cons_ne_nil b t)).symm

/-- In a list sorted by `≤`, every element is at most the last one. -/
theorem sorted_le_getLast :
    ∀ (l : List String), l.Sorted (· ≤ ·) → ∀ (h : l ≠ []) (a : String), a ∈ l →
      a ≤ l.getLast h
  | [], _, h, _, _ => absurd rfl h
  | [b], _, _, a, ha => by
    have : a = b := by simpa using ha
    subst this
    exact le_refl a
  | b :: c :: t, hs, _, a, ha => by
    rw [List.getLast_cons (List.cons_ne_nil c t)]
    rcases List.mem_cons.mp ha with rfl | ha2
    · exact List.rel_of_sorted_cons hs _ (List.getLast_mem (List.cons_ne_nil c t))
    · exact sorted_le_getLast (c :: t) hs.of_cons (List.cons_ne_nil c t) a ha2

/-- Mapping a function over a non-empty list maps its last element. -/
theorem map_getLast (f : String → String) :
    ∀ (l : List String) (h : l ≠ []) (h2 : l.map f ≠ []),
      (l.map f).getLast h2 = f (l.getLast h)
  | [_], _, _ => rfl
  | a :: b :: t, _, _ => by
    have ih := map_getLast f (b :: t) (List.cons_ne_nil b t) (by simp)
    calc ((a :: b :: t).map f).getLast (by simp)
        = ((b :: t).map f).getLast (by simp) := List.getLast_cons (by simp)
      _ = f ((b :: t).getLast (List.cons_ne_nil b t)) := ih
      _ = f ((a :: b :: t).getLast (List.cons_ne_nil a (b :: t))) := by
          rw [List.getLast_cons (List.cons_ne_nil b t)]

/-! ## Claims -/

/-- C10: for every argument vector whose command token is `"refresh"`,
`peekCommand` returns `"refresh"` (it is in the recognized-command list),
yet `getCommand` returns `null`, so `"refresh"` never resolves to a
recognized command at the public `getCommand` interface. -/
theorem refresh_peeks_but_never_resolves (a0 a1 : String) (rest : List String) :
    CommandParser.peekCommand ⟨a0 :: a1 :: "refresh" :: rest⟩ = some "refresh" ∧
    CommandParser.getCommand ⟨a0 :: a1 :: "refresh" :: rest⟩ = none := by
  have hpeek : CommandParser.peekCommand ⟨a0 :: a1 :: "refresh" :: rest⟩ = some "refresh" := by
    rw [peekCommand_cons]
    rfl
  refine ⟨hpeek, ?_⟩
  unfold CommandParser.getCommand
  rw [hpeek]
  rfl

/-- C5: for every channel name not in the fixed set
`{"beta", "canary", "stable"}`, constructing an `AndroidProjectDeps`
fails immediately with a construction error; for every name in that set,
construction succeeds and binds that channel. -/
theorem channel_construction (c : String) :
    (AndroidProjectDeps.create c = Except.ok { _channel := c } ↔
      (c = "beta" ∨ c = "canary" ∨ c = "stable")) ∧
    (AndroidProjectDeps.create c = Except.error ("Unknown channel " ++ c) ↔
      ¬ (c = "beta" ∨ c = "canary" ∨ c = "stable")) := by
  have key : (CHANNELS.contains c = true) ↔ (c = "beta" ∨ c = "canary" ∨ c = "stable") := by
    rw [string_contains_iff]
    simp [CHANNELS]
  unfold AndroidProjectDeps.create
  split_ifs with h
  · simp [key.mp h]
  · have hd : ¬ (c = "beta" ∨ c = "canary" ∨ c = "stable") := fun hh => h (key.mpr hh)
    simp [hd]

/-- C2, counterexample: when the transfer callback of `download` reports
the error message `"network failure"`, the caller does get a null
filename and the non-empty failure message, but the progress indicator
terminal rendering `done` IS performed (the source calls
`indicator.done("")` before inspecting the error), contradicting the
claim that no terminal `done` rendering occurs. -/
theorem download_failure_done_counterexample :
    (AndroidProjectDeps.download ⟨"stable"⟩ "1.2.3.4" "deps"
        ⟨some "network failure"⟩).cbFilename = none ∧
    (AndroidProjectDeps.download ⟨"stable"⟩ "1.2.3.4" "deps"
        ⟨some "network failure"⟩).cbErrormsg = some "network failure" ∧
    (AndroidProjectDeps.download ⟨"stable"⟩ "1.2.3.4" "deps"
        ⟨some "network failure"⟩).doneArg = some "" := by
  decide

/-- C2, amended: for every invocation of `download` whose transfer
callback reports a non-empty error message, `download` passes the caller
a null filename together with that non-empty failure message; the
progress indicator terminal rendering `done` is nevertheless performed,
with an empty final message, on this failure path too. -/
theorem download_failure_behaviour (deps : AndroidProjectDeps) (version dir msg : String)
    (hmsg : msg ≠ "") :
    (AndroidProjectDeps.download deps version dir ⟨some msg⟩).cbFilename = none ∧
    (AndroidProjectDeps.download deps version dir ⟨some msg⟩).cbErrormsg = some msg ∧
    (AndroidProjectDeps.download deps version dir ⟨some msg⟩).doneArg = some "" := by
  have ht : truthy (some msg) = true := by
    simp [truthy, hmsg]
  unfold AndroidProjectDeps.download
  rw [if_pos ht]
  exact ⟨rfl, rfl, rfl⟩

/-- C2, witness for the amended theorem at a concrete failing transfer. -/
theorem download_failure_behaviour_witness :
    (AndroidProjectDeps.download ⟨"beta"⟩ "9.9.9.9" "dir"
        ⟨some "connection reset"⟩).cbFilename = none ∧
    (AndroidProjectDeps.download ⟨"beta"⟩ "9.9.9.9" "dir"
        ⟨some "connection reset"⟩).cbErrormsg = some "connection reset" ∧
    (AndroidProjectDeps.download ⟨"beta"⟩ "9.9.9.9" "dir"
        ⟨some "connection reset"⟩).doneArg = some "" :=
  download_failure_behaviour ⟨"beta"⟩ "9.9.9.9" "dir" "connection reset" (by decide)

/-- C6: for every run of `fetchVersions` in which the listing download
fails (the transfer callback reports a non-empty error message), the
operation does not raise: it invokes the completion callback with a null
version list together with that failure message. -/
theorem fetchVersions_download_failure (deps : AndroidProjectDeps)
    (env : AndroidProjectDeps.FetchEnv) (msg : String)
    (htmp : truthy env.tmpfile = true) (herr : env.errormsg = some msg) (hmsg : msg ≠ "") :
    (AndroidProjectDeps.fetchVersions deps env).raised = false ∧
    (AndroidProjectDeps.fetchVersions deps env).cbCalled = true ∧
    (AndroidProjectDeps.fetchVersions deps env).cbVersions = none ∧
    (AndroidProjectDeps.fetchVersions deps env).cbErrormsg = some msg := by
  have ht : truthy env.errormsg = true := by
    rw [herr]
    simp [truthy, hmsg]
  unfold AndroidProjectDeps.fetchVersions
  rw [if_pos htmp, if_pos ht]
  exact ⟨rfl, rfl, rfl, herr⟩

/-- C6, witness at a concrete failing download. -/
theorem fetchVersions_download_failure_witness :
    (AndroidProjectDeps.fetchVersions ⟨"canary"⟩
        ⟨some "/tmp/index.html.abc123", some "404 not found", Except.ok ""⟩).raised = false ∧
    (AndroidProjectDeps.fetchVersions ⟨"canary"⟩
        ⟨some "/tmp/index.html.abc123", some "404 not found", Except.ok ""⟩).cbCalled = true ∧
    (AndroidProjectDeps.fetchVersions ⟨"canary"⟩
        ⟨some "/tmp/index.html.abc123", some "404 not found", Except.ok ""⟩).cbVersions = none ∧
    (AndroidProjectDeps.fetchVersions ⟨"canary"⟩
        ⟨some "/tmp/index.html.abc123", some "404 not found", Except.ok ""⟩).cbErrormsg =
      some "404 not found" :=
  fetchVersions_download_failure ⟨"canary"⟩
    ⟨some "/tmp/index.html.abc123", some "404 not found", Except.ok ""⟩
    "404 not found" (by decide) rfl (by decide)

/-- C1, counterexample: a run of `fetchVersions` in which the temporary
file is acquired and the download succeeds, but reading the downloaded
listing back raises: the `ShellJS.rm` statement is placed after the read
in straight-line code with no try/finally, so the removal is skipped and
the exception escapes — the temporary file is left behind on this exit
path, contradicting the claim that it is removed on every exit path. -/
theorem fetchVersions_cleanup_counterexample :
    truthy (some "/tmp/index.html.abc123") = true ∧
    (AndroidProjectDeps.fetchVersions ⟨"stable"⟩
        ⟨some "/tmp/index.html.abc123", none, Except.error "EIO read failed"⟩).rmIndexFile
      = false ∧
    (AndroidProjectDeps.fetchVersions ⟨"stable"⟩
        ⟨some "/tmp/index.html.abc123", none, Except.error "EIO read failed"⟩).raised
      = true := by
  decide

/-- C1, amended: for every run of `fetchVersions` that acquires a
temporary listing file, the file is removed exactly on the exit paths
that reach the removal statement: the success path and the
download-failure path. When reading the downloaded listing back raises,
the removal is skipped (the exception propagates first); the Listing
Parser itself never fails. -/
theorem fetchVersions_cleanup (deps : AndroidProjectDeps)
    (env : AndroidProjectDeps.FetchEnv) (htmp : truthy env.tmpfile = true) :
    (AndroidProjectDeps.fetchVersions deps env).rmIndexFile = true ↔
      (truthy env.errormsg = true ∨ env.readResult.isOk = true) := by
  unfold AndroidProjectDeps.fetchVersions
  rw [if_pos htmp]
  by_cases herr : truthy env.errormsg = true
  · rw [if_pos herr]
    simp [herr]
  · rw [if_neg herr]
    cases hr : env.readResult with
    | error e => simp [herr, hr, Except.isOk, Except.toBool]
    | ok buffer => simp [herr, hr, Except.isOk, Except.toBool]

/-- C1, witness for the amended theorem: on a concrete download-failure
run the removal does happen. -/
theorem fetchVersions_cleanup_witness :
    (AndroidProjectDeps.fetchVersions ⟨"beta"⟩
        ⟨some "/tmp/index.html.xyz789", some "timeout", Except.ok ""⟩).rmIndexFile = true ↔
      (truthy (some "timeout") = true ∨ (Except.ok "" : Except String String).isOk = true) :=
  fetchVersions_cleanup ⟨"beta"⟩ ⟨some "/tmp/index.html.xyz789", some "timeout", Except.ok ""⟩
    (by decide)

/-- C9: for every bound channel and every version identifier,
`fetchVersions` requests the listing at `<base-url>/<channel>/`, and
`download(version, dir)` requests the archive at
`<base-url>/<channel>/<version>/<archive-name>-<version>.zip` (with
archive name `crosswalk`) and hands the Transfer Client the destination
file `<archive-name>-<version>.zip` inside the destination directory. -/
theorem request_urls (ch version dir : String) (fenv : AndroidProjectDeps.FetchEnv)
    (denv : AndroidProjectDeps.DownloadEnv) :
    (AndroidProjectDeps.fetchVersions ⟨ch⟩ fenv).url = specListingUrl BASE_URL ch ∧
    (AndroidProjectDeps.download ⟨ch⟩ version dir denv).url =
      specArchiveUrl BASE_URL ch version "crosswalk" ∧
    (AndroidProjectDeps.download ⟨ch⟩ version dir denv).path =
      AndroidProjectDeps.pathJoin dir (specArchiveFilename "crosswalk" version) := by
  have hname : specArchiveFilename "crosswalk" version = "crosswalk-" ++ version ++ ".zip" := by
    unfold specArchiveFilename
    rfl
  refine ⟨?_, ?_, ?_⟩
  · unfold AndroidProjectDeps.fetchVersions specListingUrl
    split_ifs
    · rfl
    · cases fenv.readResult <;> rfl
    · rfl
  · unfold AndroidProjectDeps.download specArchiveUrl
    rw [hname]
    split_ifs <;> rfl
  · unfold AndroidProjectDeps.download
    rw [hname]
    split_ifs <;> rfl

/-- C3, counterexample: on the argument vector
`["node", "crosswalk-app", "update", "..."]` the command resolves to
`"update"`, although `"..."` does not consist of 4 non-empty digit
segments (its 4 dot-separated segments are all empty): the source only
checks the character class `[0-9.]` and the segment count, never that
segments are non-empty digit runs. -/
theorem update_accepts_empty_segments :
    CommandParser.getCommand ⟨["node", "crosswalk-app", "update", "..."]⟩ = some "update" ∧
    AndroidProjectDeps.isVersionShape "..." = false := by
  decide

/-- Dispatch of `getCommand` to the package validator. -/
theorem getCommand_of_peek_create (p : CommandParser) (h : p.peekCommand = some "create") :
    p.getCommand = (if (p.createGetPackage).isSome then some "create" else none) := by
  unfold CommandParser.getCommand
  rw [h]
  rfl

/-- Dispatch of `getCommand` to the version validator. -/
theorem getCommand_of_peek_update (p : CommandParser) (h : p.peekCommand = some "update") :
    p.getCommand = (if (p.updateGetVersion).isSome then some "update" else none) := by
  unfold CommandParser.getCommand
  rw [h]
  rfl

/-- Dispatch of `getCommand` to the build-type validator. -/
theorem getCommand_of_peek_build (p : CommandParser) (h : p.peekCommand = some "build") :
    p.getCommand = (if (p.buildGetType).isSome then some "build" else none) := by
  unfold CommandParser.getCommand
  rw [h]
  rfl

/-- C3, amended: for every argument vector whose command token is
`"update"`, `getCommand` returns `"update"` if and only if the following
argument is present, consists only of digits and dots, and splits on
dots into exactly 4 segments - segments may be empty; for every other
value of that argument `getCommand` returns `none`. -/
theorem update_version_validation (a0 a1 v : String) (ts : List String) :
    CommandParser.getCommand ⟨[a0, a1, "update"]⟩ = none ∧
    CommandParser.getCommand ⟨a0 :: a1 :: "update" :: v :: ts⟩ =
      (if v.data.all isVerChar = true ∧ (jsSplit v '.').length = 4 then
        some "update"
      else
        none) := by
  constructor
  · have hpeek : CommandParser.peekCommand ⟨[a0, a1, "update"]⟩ = some "update" := by
      rw [peekCommand_cons]
      rfl
    have hv : CommandParser.updateGetVersion ⟨[a0, a1, "update"]⟩ = none := by
      unfold CommandParser.updateGetVersion
      rw [if_pos (by simp)]
    rw [getCommand_of_peek_update _ hpeek, hv]
    rfl
  · have hpeek : CommandParser.peekCommand ⟨a0 :: a1 :: "update" :: v :: ts⟩ = some "update" := by
      rw [peekCommand_cons]
      rfl
    rw [getCommand_of_peek_update _ hpeek, updateGetVersion_cons]
    by_cases hall : v.data.all isVerChar = true
    · have hm2 : ¬ (jsMatchPrefix isVerChar v ≠ v) := by
        simp [(jsMatchPrefix_eq_self_iff _ _).mpr hall]
      by_cases hlen : (jsSplit v '.').length = 4
      · have h2 : ¬ ((jsSplit v '.').length ≠ 4) := by simp [hlen]
        simp only [if_neg hm2, if_neg h2]
        simp [hall, hlen]
      · simp only [if_neg hm2, if_pos hlen]
        simp [hlen]
    · have hm : jsMatchPrefix isVerChar v ≠ v :=
        fun he => hall ((jsMatchPrefix_eq_self_iff _ _).mp he)
      simp only [if_pos hm]
      simp [hall]

/-- C7: for every argument vector whose command token is `"create"`,
`getCommand` returns `"create"` if and only if the package-id argument is
present, consists only of characters `[A-Za-z0-9_.]`, does not start or
end with a dot, and splits on dots into 3 or more segments; otherwise
`getCommand` returns `none`. -/
theorem create_package_validation (a0 a1 pkg : String) (ts : List String) :
    CommandParser.getCommand ⟨[a0, a1, "create"]⟩ = none ∧
    CommandParser.getCommand ⟨a0 :: a1 :: "create" :: pkg :: ts⟩ =
      (if pkg.data.all isPkgChar = true ∧ ¬ jsCharAt pkg 0 = some '.' ∧
          ¬ jsCharAt pkg (pkg.length - 1) = some '.' ∧ 3 ≤ (jsSplit pkg '.').length then
        some "create"
      else
        none) := by
  constructor
  · have hpeek : CommandParser.peekCommand ⟨[a0, a1, "create"]⟩ = some "create" := by
      rw [peekCommand_cons]
      rfl
    have hv : CommandParser.createGetPackage ⟨[a0, a1, "create"]⟩ = none := by
      unfold CommandParser.createGetPackage
      rw [if_pos (by simp)]
    rw [getCommand_of_peek_create _ hpeek, hv]
    rfl
  · have hpeek : CommandParser.peekCommand ⟨a0 :: a1 :: "create" :: pkg :: ts⟩ = some "create" := by
      rw [peekCommand_cons]
      rfl
    rw [getCommand_of_peek_create _ hpeek, createGetPackage_cons]
    by_cases hall : pkg.data.all isPkgChar = true
    · have hm2 : ¬ (jsMatchPrefix isPkgChar pkg ≠ pkg) := by
        simp [(jsMatchPrefix_eq_self_iff _ _).mpr hall]
      by_cases hdot : jsCharAt pkg 0 = some '.' ∨ jsCharAt pkg (pkg.length - 1) = some '.'
      · simp only [if_neg hm2, if_pos hdot]
        rcases hdot with h | h <;> simp [h]
      · by_cases hlen : (jsSplit pkg '.').length < 3
        · simp only [if_neg hm2, if_neg hdot, if_pos hlen]
          simp [show ¬ (3 ≤ (jsSplit pkg '.').length) by omega]
        · simp only [if_neg hm2, if_neg hdot, if_neg hlen]
          rw [not_or] at hdot
          simp [hall, hdot.1, hdot.2, Nat.le_of_not_lt hlen]
    · have hm : jsMatchPrefix isPkgChar pkg ≠ pkg :=
        fun he => hall ((jsMatchPrefix_eq_self_iff _ _).mp he)
      simp only [if_pos hm]
      simp [hall]

/-- C8: for every argument vector whose command token is `"build"`: when
no further argument is present the build type resolves to `"debug"` and
the command resolves; when the further argument is `"debug"` or
`"release"` the type resolves to that token; for any other token the
build type is invalid and `getCommand` returns `none`. -/
theorem build_type_resolution (a0 a1 t : String) (ts : List String) :
    CommandParser.buildGetType ⟨[a0, a1, "build"]⟩ = some "debug" ∧
    CommandParser.getCommand ⟨[a0, a1, "build"]⟩ = some "build" ∧
    CommandParser.buildGetType ⟨a0 :: a1 :: "build" :: t :: ts⟩ =
      (if t = "debug" ∨ t = "release" then some t else none) ∧
    CommandParser.getCommand ⟨a0 :: a1 :: "build" :: t :: ts⟩ =
      (if t = "debug" ∨ t = "release" then some "build" else none) := by
  have hc : ((["debug", "release"] : List String).contains t = true) ↔
      (t = "debug" ∨ t = "release") := by
    rw [string_contains_iff]
    simp
  have hpeek2 : CommandParser.peekCommand ⟨a0 :: a1 :: "build" :: t :: ts⟩ = some "build" := by
    rw [peekCommand_cons]
    rfl
  refine ⟨rfl, ?_, ?_, ?_⟩
  · have hpeek : CommandParser.peekCommand ⟨[a0, a1, "build"]⟩ = some "build" := by
      rw [peekCommand_cons]
      rfl
    rw [getCommand_of_peek_build _ hpeek]
    rfl
  · rw [buildGetType_cons]
    by_cases h : t = "debug" ∨ t = "release"
    · rw [if_pos (hc.mpr h), if_pos h]
    · rw [if_neg (fun hh => h (hc.mp hh)), if_neg h]
  · rw [getCommand_of_peek_build _ hpeek2, buildGetType_cons]
    by_cases h : t = "debug" ∨ t = "release"
    · simp only [if_pos (hc.mpr h), if_pos h]
      simp
    · simp only [if_neg (fun hh => h (hc.mp hh)), if_neg h]
      simp

/-- C4: for every state of the filesystem, `find` returns the
lexicographically last filename matching the archive pattern among
current-directory candidates when at least one exists; otherwise the
lexicographically last matching filename of the parent directory (as the
`../`-prefixed path `ls` reports) when one exists there; otherwise a
not-found signal (`none`, a distinguishable negative result, not an
exception). -/
theorem find_selection (fs : AndroidProjectDeps.LocalFS) :
    (fs.cwd.filter AndroidProjectDeps.matchesArchiveGlob ≠ [] →
      ∃ f, AndroidProjectDeps.find fs = some f ∧
        f ∈ fs.cwd.filter AndroidProjectDeps.matchesArchiveGlob ∧
        ∀ g ∈ fs.cwd.filter AndroidProjectDeps.matchesArchiveGlob, g ≤ f) ∧
    (fs.cwd.filter AndroidProjectDeps.matchesArchiveGlob = [] →
      fs.parent.filter AndroidProjectDeps.matchesArchiveGlob ≠ [] →
      ∃ f, AndroidProjectDeps.find fs = some ("../" ++ f) ∧
        f ∈ fs.parent.filter AndroidProjectDeps.matchesArchiveGlob ∧
        ∀ g ∈ fs.parent.filter AndroidProjectDeps.matchesArchiveGlob, g ≤ f) ∧
    (fs.cwd.filter AndroidProjectDeps.matchesArchiveGlob = [] →
      fs.parent.filter AndroidProjectDeps.matchesArchiveGlob = [] →
      AndroidProjectDeps.find fs = none) := by
  have permC := List.perm_insertionSort (α := String) (· ≤ ·)
    (fs.cwd.filter AndroidProjectDeps.matchesArchiveGlob)
  have permP := List.perm_insertionSort (α := String) (· ≤ ·)
    (fs.parent.filter AndroidProjectDeps.matchesArchiveGlob)
  have sortC := List.sorted_insertionSort (α := String) (· ≤ ·)
    (fs.cwd.filter AndroidProjectDeps.matchesArchiveGlob)
  have sortP := List.sorted_insertionSort (α := String) (· ≤ ·)
    (fs.parent.filter AndroidProjectDeps.matchesArchiveGlob)
  refine ⟨?_, ?_, ?_⟩
  · intro hne
    have hLne : AndroidProjectDeps.shellLs fs.cwd ≠ [] := by
      intro he
      unfold AndroidProjectDeps.shellLs at he
      refine hne (List.length_eq_zero.mp ?_)
      rw [← permC.length_eq, he]
      rfl
    refine ⟨(AndroidProjectDeps.shellLs fs.cwd).getLast hLne, ?_, ?_, ?_⟩
    · unfold AndroidProjectDeps.find
      rw [if_neg (by simpa using hLne), getD_last_eq_getLast _ hLne]
    · exact permC.mem_iff.mp (List.getLast_mem hLne)
    · intro g hg
      exact sorted_le_getLast _ sortC hLne g (permC.mem_iff.mpr hg)
  · intro hC hne
    have hLC : AndroidProjectDeps.shellLs fs.cwd = [] := by
      unfold AndroidProjectDeps.shellLs
      rw [hC]
      rfl
    have hLne : AndroidProjectDeps.shellLs fs.parent ≠ [] := by
      intro he
      unfold AndroidProjectDeps.shellLs at he
      refine hne (List.length_eq_zero.mp ?_)
      rw [← permP.length_eq, he]
      rfl
    have hMne : (AndroidProjectDeps.shellLs fs.parent).map (fun n => "../" ++ n) ≠ [] := by
      simpa using hLne
    refine ⟨(AndroidProjectDeps.shellLs fs.parent).getLast hLne, ?_, ?_, ?_⟩
    · unfold AndroidProjectDeps.find
      rw [if_pos (by simp [hLC]), if_neg (by simpa using hMne),
        getD_last_eq_getLast _ hMne, map_getLast _ _ hLne hMne]
    · exact permP.mem_iff.mp (List.getLast_mem hLne)
    · intro g hg
      exact sorted_le_getLast _ sortP hLne g (permP.mem_iff.mpr hg)
  · intro hC hP
    have hLC : AndroidProjectDeps.shellLs fs.cwd = [] := by
      unfold AndroidProjectDeps.shellLs
      rw [hC]
      rfl
    have hLP : AndroidProjectDeps.shellLs fs.parent = [] := by
      unfold AndroidProjectDeps.shellLs
      rw [hP]
      rfl
    unfold AndroidProjectDeps.find
    rw [if_pos (by simp [hLC]), if_pos (by simp [hLP])]

/-- C4, witness: the three branches of `find_selection` at concrete
filesystem states — current-directory match (lexicographically last wins),
parent-directory fallback, and the not-found signal. -/
theorem find_selection_witness :
    (∃ f, AndroidProjectDeps.find
        ⟨["crosswalk-2.0.0.0.zip", "b.txt", "crosswalk-10.0.0.0.zip"], []⟩ = some f ∧
      f ∈ ["crosswalk-2.0.0.0.zip", "b.txt", "crosswalk-10.0.0.0.zip"].filter
        AndroidProjectDeps.matchesArchiveGlob ∧
      ∀ g ∈ ["crosswalk-2.0.0.0.zip", "b.txt", "crosswalk-10.0.0.0.zip"].filter
        AndroidProjectDeps.matchesArchiveGlob, g ≤ f) ∧
    (∃ f, AndroidProjectDeps.find ⟨["a.txt"], ["crosswalk-1.2.3.4.zip"]⟩ =
        some ("../" ++ f) ∧
      f ∈ ["crosswalk-1.2.3.4.zip"].filter AndroidProjectDeps.matchesArchiveGlob ∧
      ∀ g ∈ ["crosswalk-1.2.3.4.zip"].filter AndroidProjectDeps.matchesArchiveGlob,
        g ≤ f) ∧
    AndroidProjectDeps.find ⟨["a.txt"], ["b.txt"]⟩ = none :=
  ⟨(find_selection ⟨["crosswalk-2.0.0.0.zip", "b.txt", "crosswalk-10.0.0.0.zip"], []⟩).1
      (by decide),
   (find_selection ⟨["a.txt"], ["crosswalk-1.2.3.4.zip"]⟩).2.1 (by decide) (by decide),
   (find_selection ⟨["a.txt"], ["b.txt"]⟩).2.2 (by decide) (by decide)⟩

end Crosswalk
